import Mathlib

/-!
Verification of the `eventjoiner` resolver core (`src/main.rs`).

The embedding models:
* `Day` with its cyclic `next` (including the source's `Teusday` spelling);
* `Event` with `time` as seconds since midnight (models `chrono::NaiveTime`,
  which the source compares and subtracts at second granularity);
* `Config` with the timetable, the event-name map, the command map and
  `notify_before` (minutes, a `u32`);
* the two resolvers `get_event_and_command` and `next_class`.

Rust behaviours captured explicitly:
* `HashMap::get` is an `Option`; every `.unwrap()` in the source is a panic
  point, modelled by the `Outcome.panic` constructor tagged with its source;
* `chrono::NaiveTime - chrono::Duration` wraps modulo 24 hours (`wrapSub`);
* `chrono::NaiveTime - chrono::NaiveTime` is an exact signed `Duration`;
* `Duration::to_std()` fails exactly on negative durations (`toStd`);
* `Vec::sort_by` is a stable sort, modelled by stable insertion sort
  (`sortEvents`; any two stable sorts by the same key coincide);
* `binary_search_by(|s| s.time.cmp(&now))` on the sorted vector followed by
  indexing, with the `idx < len` guard, yields the first event of the sorted
  list whose `time` is ≥ `now` — modelled by `List.find?` on the sorted list;
* `Iterator::min_by` returns the first minimal element (`minByTime`).
-/

namespace EventJoiner

/-- The seven weekdays as enumerated in the source, `Teusday` spelling kept. -/
inductive Day where
  | monday
  | teusday
  | wednesday
  | thursday
  | friday
  | saturday
  | sunday
  deriving DecidableEq, Repr

/-- Model of `Day::next`: cyclic successor, with `next(Sunday) = Monday`. -/
def Day.next : Day → Day
  | .monday => .teusday
  | .teusday => .wednesday
  | .wednesday => .thursday
  | .thursday => .friday
  | .friday => .saturday
  | .saturday => .sunday
  | .sunday => .monday

/-- Iterated `Day.next`: the day reached after `k` forward day-steps. -/
def Day.nextIter : Day → Nat → Day
  | d, 0 => d
  | d, k + 1 => Day.nextIter d.next k

/-- Model of `Event`: `time` is the second-of-day of the `NaiveTime`,
`event` the event name used to look up a command. -/
structure Event where
  time : Nat
  event : String
  deriving DecidableEq, Repr

/-- Model of `CommandArgs`: binary name and arguments. -/
structure CommandArgs where
  name : String
  args : List String
  deriving DecidableEq, Repr

/-- Model of `Config`: the three `HashMap`s become `Option`-valued functions
(`get`), `notify_before` is the `u32` minute count. -/
structure Config where
  timetable : Day → Option (List Event)
  events : String → Option String
  command : String → Option CommandArgs
  notify_before : Nat

/-- The `.unwrap()` panic points of the resolver bodies. -/
inductive PanicSrc where
  | mapLookup
  | emptyMin
  | negDuration
  deriving DecidableEq, Repr

/-- Result of running a resolver: a value, `None`, or a panic (tagged with
which `.unwrap()` fired). -/
inductive Outcome (α : Type) where
  | found : α → Outcome α
  | nothing : Outcome α
  | panic : PanicSrc → Outcome α
  deriving DecidableEq, Repr

/-- True exactly on the panic outcomes. -/
def Outcome.isPanic {α : Type} : Outcome α → Bool
  | .panic _ => true
  | _ => false

/-- Model of `option.unwrap()` on a `HashMap::get` result followed by the
continuation: `None` panics. -/
def unwrapMap {α β : Type} (o : Option α) (k : α → Outcome β) : Outcome β :=
  match o with
  | some a => k a
  | none => .panic .mapLookup

/-- Stable insertion of an event into a time-sorted list: an incoming event
goes after the events with a strictly smaller time and before the events with
an equal or larger time, preserving the original order of equal times. -/
def insertEvent (x : Event) : List Event → List Event
  | [] => [x]
  | y :: ys => if y.time < x.time then y :: insertEvent x ys else x :: y :: ys

/-- Model of `events.sort_by(compare_events)`: the stable sort by `time`. -/
def sortEvents : List Event → List Event
  | [] => []
  | x :: xs => insertEvent x (sortEvents xs)

/-- Today's candidate: `timetable.get(&day)` (`None` when the key is absent),
then clone-and-sort, then the sorted binary search with the `idx < len` guard,
i.e. the first event of the sorted list with `time ≥ time_now`.  Both
resolvers run these exact lines on the same data. -/
def todayCandidate (config : Config) (today : Day) (time_now : Nat) : Option Event :=
  (config.timetable today).bind fun evs =>
    (sortEvents evs).find? fun e => decide (time_now ≤ e.time)

/-- Model of `chrono::NaiveTime - chrono::Duration`: subtraction of a signed
number of seconds from a second-of-day, wrapping modulo 24 hours. -/
def wrapSub (t : Nat) (secs : Int) : Nat :=
  (((t : Int) - secs) % 86400).toNat

/-- The `notify_time` computed by `next_class`:
`event.time - Duration::minutes(config.notify_before)` (wrapping). -/
def notifyTime (config : Config) (e : Event) : Nat :=
  wrapSub e.time (60 * (config.notify_before : Int))

/-- Model of `chrono::Duration::to_std()`: succeeds exactly on non-negative
durations (the resolver's durations are all far below the `u64` bound). -/
def toStd (d : Int) : Option Nat :=
  if 0 ≤ d then some d.toNat else none

/-- Model of `Iterator::min_by` on a nonempty list, seeded with the head:
keeps the earlier element on ties, so it returns the first minimal element. -/
def minFold (acc : Event) (l : List Event) : Event :=
  l.foldl (fun acc e => if e.time < acc.time then e else acc) acc

/-- Model of `events.into_iter().min_by(|a, b| a.time.cmp(&b.time))`. -/
def minByTime : List Event → Option Event
  | [] => none
  | x :: xs => some (minFold x xs)

/-- Model of `get_event_and_command` (src/main.rs:161-185), with the clock
passed explicitly as `(today, time_now)`.  After the sorted search, the source
returns `Some` when `events[idx].time - time_now > Duration::minutes(notify_before)`
and `None` otherwise; the two `HashMap` lookups inside the `Some` arm are
`.unwrap()`ed. -/
def get_event_and_command (config : Config) (today : Day) (time_now : Nat) :
    Outcome (Event × CommandArgs) :=
  match todayCandidate config today time_now with
  | none => .nothing
  | some cand =>
    if 60 * (config.notify_before : Int) < (cand.time : Int) - (time_now : Int) then
      unwrapMap (config.events cand.event) fun cname =>
        unwrapMap (config.command cname) fun cmd =>
          .found (cand, cmd)
    else
      .nothing

/-- The duration computed in the cross-day loop of `next_class`
(src/main.rs:239-243): `Duration::days(diff) + (notify_time - time_now)` when
`notify_time > time_now`, else
`Duration::days(diff - 1) + (Duration::days(1) - (time_now - notify_time))`,
in signed seconds. -/
def walkDuration (config : Config) (time_now : Nat) (diff : Nat) (ev : Event) : Int :=
  if time_now < notifyTime config ev then
    86400 * (diff : Int) + ((notifyTime config ev : Int) - (time_now : Int))
  else
    86400 * ((diff : Int) - 1) + (86400 - ((time_now : Int) - (notifyTime config ev : Int)))

/-- Model of the `for diff in 1..=6` walk of `next_class` (src/main.rs:225-253).
Arguments: current day (stepped by `next` at the top of each iteration), the
`diff` value of the coming iteration, and the remaining iteration count.
An absent day continues; a present day takes `min_by(..).unwrap()` (panicking
on an empty list), computes the duration, `to_std().unwrap()`s it, and
`.unwrap()`s the two map lookups. -/
def next_class_loop (config : Config) (time_now : Nat) :
    Day → Nat → Nat → Outcome (Nat × CommandArgs × Event)
  | _, _, 0 => .nothing
  | cur_day, diff, rem + 1 =>
    match config.timetable cur_day.next with
    | none => next_class_loop config time_now cur_day.next (diff + 1) rem
    | some evs =>
      match minByTime evs with
      | none => .panic .emptyMin
      | some ev =>
        match toStd (walkDuration config time_now diff ev) with
        | none => .panic .negDuration
        | some s =>
          unwrapMap (config.events ev.event) fun cname =>
            unwrapMap (config.command cname) fun cmd =>
              .found (s, cmd, ev)

/-- Model of `next_class` (src/main.rs:188-256).  The today branch repeats the
candidate search of `get_event_and_command`; on a candidate it compares the
wrapped `notify_time` with `time_now` and returns either a zero duration or
`(notify_time - time_now).to_std().unwrap()`; with no candidate it falls
through to the six-day walk. -/
def next_class (config : Config) (today : Day) (time_now : Nat) :
    Outcome (Nat × CommandArgs × Event) :=
  match todayCandidate config today time_now with
  | some ev =>
    if notifyTime config ev ≤ time_now then
      unwrapMap (config.events ev.event) fun cname =>
        unwrapMap (config.command cname) fun cmd =>
          .found (0, cmd, ev)
    else
      match toStd ((notifyTime config ev : Int) - (time_now : Int)) with
      | none => .panic .negDuration
      | some s =>
        unwrapMap (config.events ev.event) fun cname =>
          unwrapMap (config.command cname) fun cmd =>
            .found (s, cmd, ev)
  | none => next_class_loop config time_now today 1 6

/-! ### Concrete configurations used by the scenario claims -/

/-- The 09:00 "math" event of the spec scenarios (09:00 = 32400 s). -/
def evMath : Event := ⟨32400, "math"⟩

/-- A 00:30 event, used to exercise the midnight wrap of `notify_time`. -/
def evHalf : Event := ⟨1800, "math"⟩

/-- The command the scenario maps "math" to. -/
def cmdZoom : CommandArgs := ⟨"zoom", ["class"]⟩

/-- Scenario config: Monday ↦ [09:00 math], notify_before = 5 minutes. -/
def cfgMon5 : Config where
  timetable := fun d => match d with | .monday => some [evMath] | _ => none
  events := fun s => if s = "math" then some "zoom" else none
  command := fun s => if s = "zoom" then some cmdZoom else none
  notify_before := 5

/-- Scenario config for C6: Monday ↦ [09:00 math], notify_before = 1 minute. -/
def cfgC6 : Config where
  timetable := fun d => match d with | .monday => some [evMath] | _ => none
  events := fun s => if s = "math" then some "zoom" else none
  command := fun s => if s = "zoom" then some cmdZoom else none
  notify_before := 1

/-- Wrap config: Monday ↦ [00:30 math], notify_before = 60 minutes, so the
notify threshold falls before midnight. -/
def cfgWrap : Config where
  timetable := fun d => match d with | .monday => some [evHalf] | _ => none
  events := fun s => if s = "math" then some "zoom" else none
  command := fun s => if s = "zoom" then some cmdZoom else none
  notify_before := 60

/-- Config with a present-but-empty Tuesday after a nonempty Monday. -/
def cfgEmptyTue : Config where
  timetable := fun d =>
    match d with
    | .monday => some [evMath]
    | .teusday => some []
    | _ => none
  events := fun s => if s = "math" then some "zoom" else none
  command := fun s => if s = "zoom" then some cmdZoom else none
  notify_before := 5

/-- Config whose only timetable entry is a present-but-empty Tuesday. -/
def cfgOnlyEmptyTue : Config where
  timetable := fun d => match d with | .teusday => some [] | _ => none
  events := fun _ => none
  command := fun _ => none
  notify_before := 5

/-- Config with events scheduled but empty `events`/`command` maps. -/
def cfgNoEvents : Config where
  timetable := fun d => match d with | .monday => some [evMath] | _ => none
  events := fun _ => none
  command := fun _ => none
  notify_before := 5

/-- Config with present-but-empty Monday and Tuesday. -/
def cfgTwoEmpty : Config where
  timetable := fun d =>
    match d with
    | .monday => some []
    | .teusday => some []
    | _ => none
  events := fun _ => none
  command := fun _ => none
  notify_before := 5

/-- Config with no timetable entries at all. -/
def cfgAllAbsent : Config where
  timetable := fun _ => none
  events := fun _ => none
  command := fun _ => none
  notify_before := 5

/-! ### Helper lemmas about the sort, the search, the minimum and the walk -/

theorem mem_insertEvent {x a : Event} {l : List Event} :
    a ∈ insertEvent x l ↔ a = x ∨ a ∈ l := by
  induction l with
  | nil => simp [insertEvent]
  | cons y ys ih =>
    by_cases hc : y.time < x.time
    · simp only [insertEvent, if_pos hc, List.mem_cons, ih]
      tauto
    · simp only [insertEvent, if_neg hc, List.mem_cons]

theorem pairwise_insertEvent {x : Event} {l : List Event}
    (h : l.Pairwise (fun a b => a.time ≤ b.time)) :
    (insertEvent x l).Pairwise (fun a b => a.time ≤ b.time) := by
  induction l with
  | nil => simp [insertEvent]
  | cons y ys ih =>
    obtain ⟨hy, hys⟩ := List.pairwise_cons.mp h
    by_cases hc : y.time < x.time
    · simp only [insertEvent, if_pos hc]
      refine List.pairwise_cons.mpr ⟨?_, ih hys⟩
      intro z hz
      rcases mem_insertEvent.mp hz with rfl | hz'
      · exact Nat.le_of_lt hc
      · exact hy _ hz'
    · simp only [insertEvent, if_neg hc]
      refine List.pairwise_cons.mpr ⟨?_, h⟩
      intro z hz
      rcases List.mem_cons.mp hz with rfl | hz'
      · exact Nat.le_of_not_lt hc
      · exact Nat.le_trans (Nat.le_of_not_lt hc) (hy _ hz')

theorem mem_sortEvents {a : Event} {l : List Event} : a ∈ sortEvents l ↔ a ∈ l := by
  induction l with
  | nil => simp [sortEvents]
  | cons x xs ih => simp [sortEvents, mem_insertEvent, ih]

theorem pairwise_sortEvents (l : List Event) :
    (sortEvents l).Pairwise (fun a b => a.time ≤ b.time) := by
  induction l with
  | nil => simp [sortEvents]
  | cons x xs ih => exact pairwise_insertEvent ih

theorem find?_earliest {t : Nat} {l : List Event} {a : Event}
    (hs : l.Pairwise (fun a b => a.time ≤ b.time))
    (h : l.find? (fun e => decide (t ≤ e.time)) = some a) :
    ∀ x ∈ l, t ≤ x.time → a.time ≤ x.time := by
  induction l with
  | nil => simp at h
  | cons y ys ih =>
    obtain ⟨hy, hys⟩ := List.pairwise_cons.mp hs
    by_cases hc : t ≤ y.time
    · have ha : a = y := by
        rw [List.find?_cons_of_pos _ (by simpa using hc)] at h
        exact (Option.some.inj h).symm
      subst ha
      intro x hx _
      rcases List.mem_cons.mp hx with rfl | hx'
      · exact Nat.le_refl _
      · exact hy x hx'
    · rw [List.find?_cons_of_neg _ (by simpa using hc)] at h
      intro x hx hxt
      rcases List.mem_cons.mp hx with rfl | hx'
      · exact absurd hxt hc
      · exact ih hys h x hx' hxt

theorem todayCandidate_mem {config : Config} {today : Day} {t : Nat} {ev : Event}
    (h : todayCandidate config today t = some ev) :
    ∃ evs, config.timetable today = some evs ∧ ev ∈ evs ∧ t ≤ ev.time := by
  cases htt : config.timetable today with
  | none => simp [todayCandidate, htt] at h
  | some evs =>
    have hfind : (sortEvents evs).find? (fun e => decide (t ≤ e.time)) = some ev := by
      simpa [todayCandidate, htt] using h
    have hp := List.find?_some hfind
    exact ⟨evs, rfl, mem_sortEvents.mp (List.mem_of_find?_eq_some hfind),
      by simpa using hp⟩

theorem todayCandidate_spec {config : Config} {today : Day} {t : Nat} {ev : Event}
    {evs : List Event} (htt : config.timetable today = some evs)
    (h : todayCandidate config today t = some ev) :
    ev ∈ evs ∧ t ≤ ev.time ∧ ∀ x ∈ evs, t ≤ x.time → ev.time ≤ x.time := by
  have hfind : (sortEvents evs).find? (fun e => decide (t ≤ e.time)) = some ev := by
    simpa [todayCandidate, htt] using h
  have hp := List.find?_some hfind
  refine ⟨mem_sortEvents.mp (List.mem_of_find?_eq_some hfind),
    by simpa using hp, ?_⟩
  intro x hx hxt
  exact find?_earliest (pairwise_sortEvents evs) hfind x (mem_sortEvents.mpr hx) hxt

theorem minFold_spec (l : List Event) : ∀ acc : Event,
    (minFold acc l = acc ∨ minFold acc l ∈ l) ∧
      (minFold acc l).time ≤ acc.time ∧ ∀ x ∈ l, (minFold acc l).time ≤ x.time := by
  induction l with
  | nil =>
    intro acc
    refine ⟨Or.inl rfl, Nat.le_refl _, ?_⟩
    intro x hx
    exact absurd hx (List.not_mem_nil x)
  | cons e t ih =>
    intro acc
    by_cases hc : e.time < acc.time
    · have hstep : minFold acc (e :: t) = minFold e t := by
        simp [minFold, List.foldl_cons, if_pos hc]
      obtain ⟨hmem, hle, hall⟩ := ih e
      rw [hstep]
      refine ⟨?_, ?_, ?_⟩
      · rcases hmem with h | h
        · refine Or.inr ?_
          rw [h]
          exact List.mem_cons_self e t
        · exact Or.inr (List.mem_cons_of_mem e h)
      · exact Nat.le_trans hle (Nat.le_of_lt hc)
      · intro x hx
        rcases List.mem_cons.mp hx with rfl | hx'
        · exact hle
        · exact hall x hx'
    · have hstep : minFold acc (e :: t) = minFold acc t := by
        simp [minFold, List.foldl_cons, if_neg hc]
      obtain ⟨hmem, hle, hall⟩ := ih acc
      rw [hstep]
      refine ⟨?_, ?_, ?_⟩
      · rcases hmem with h | h
        · exact Or.inl h
        · exact Or.inr (List.mem_cons_of_mem e h)
      · exact hle
      · intro x hx
        rcases List.mem_cons.mp hx with rfl | hx'
        · exact Nat.le_trans hle (Nat.le_of_not_lt hc)
        · exact hall x hx'

theorem minByTime_spec {l : List Event} {ev : Event} (h : minByTime l = some ev) :
    ev ∈ l ∧ ∀ x ∈ l, ev.time ≤ x.time := by
  cases l with
  | nil => simp [minByTime] at h
  | cons x xs =>
    have hx : minFold x xs = ev := Option.some.inj h
    obtain ⟨hmem, hle, hall⟩ := minFold_spec xs x
    subst hx
    constructor
    · rcases hmem with h' | h'
      · rw [h']
        exact List.mem_cons_self x xs
      · exact List.mem_cons_of_mem x h'
    · intro y hy
      rcases List.mem_cons.mp hy with rfl | hy'
      · exact hle
      · exact hall y hy'

theorem minByTime_isSome {l : List Event} (h : l ≠ []) : ∃ ev, minByTime l = some ev := by
  cases l with
  | nil => exact absurd rfl h
  | cons x xs => exact ⟨minFold x xs, rfl⟩

theorem wrapSub_lt (t : Nat) (secs : Int) : wrapSub t secs < 86400 := by
  have hpos : (0 : Int) < 86400 := by decide
  have h1 := Int.emod_lt_of_pos ((t : Int) - secs) hpos
  have h0 := Int.emod_nonneg ((t : Int) - secs) (by decide : (86400 : Int) ≠ 0)
  unfold wrapSub
  omega

theorem toStd_eq_some {d : Int} (h : 0 ≤ d) : toStd d = some d.toNat := by
  simp [toStd, h]

theorem walkDuration_nonneg (config : Config) (t diff : Nat) (ev : Event)
    (hdiff : 1 ≤ diff) (ht : t < 86400) :
    0 ≤ walkDuration config t diff ev := by
  have h1 : notifyTime config ev < 86400 := wrapSub_lt _ _
  unfold walkDuration
  split
  · omega
  · omega

theorem walkDuration_toNat (config : Config) (t diff : Nat) (ev : Event)
    (hdiff : 1 ≤ diff) (ht : t < 86400) :
    (walkDuration config t diff ev).toNat =
      if t < notifyTime config ev
      then 86400 * diff + (notifyTime config ev - t)
      else 86400 * (diff - 1) + (86400 - (t - notifyTime config ev)) := by
  have h1 : notifyTime config ev < 86400 := wrapSub_lt _ _
  unfold walkDuration
  by_cases hc : t < notifyTime config ev
  · rw [if_pos hc, if_pos hc]
    omega
  · rw [if_neg hc, if_neg hc]
    omega

theorem next_class_loop_none (config : Config) (t : Nat) :
    ∀ (rem : Nat) (d : Day) (diff : Nat),
      (∀ k, 1 ≤ k → k ≤ rem → config.timetable (Day.nextIter d k) = none) →
      next_class_loop config t d diff rem = .nothing := by
  intro rem
  induction rem with
  | zero => intro d diff _; rfl
  | succ r ih =>
    intro d diff h
    have h1 : config.timetable d.next = none :=
      h 1 (Nat.le_refl _) (Nat.succ_le_succ (Nat.zero_le _))
    simp only [next_class_loop, h1]
    exact ih d.next (diff + 1) fun k hk1 hkr =>
      h (k + 1) (Nat.le_succ_of_le hk1) (Nat.succ_le_succ hkr)

theorem next_class_loop_hit (config : Config) (t : Nat) (j : Nat) :
    ∀ (rem : Nat) (d : Day) (diff : Nat) (evs : List Event) (ev : Event)
      (s : Nat) (cname : String) (cmd : CommandArgs),
      j < rem →
      (∀ k, 1 ≤ k → k ≤ j → config.timetable (Day.nextIter d k) = none) →
      config.timetable (Day.nextIter d (j + 1)) = some evs →
      minByTime evs = some ev →
      toStd (walkDuration config t (diff + j) ev) = some s →
      config.events ev.event = some cname →
      config.command cname = some cmd →
      next_class_loop config t d diff rem = .found (s, cmd, ev) := by
  induction j with
  | zero =>
    intro rem d diff evs ev s cname cmd hlt _ hday hmin hstd hcn hcmd
    cases rem with
    | zero => exact absurd hlt (Nat.not_lt_zero _)
    | succ r =>
      have hday' : config.timetable d.next = some evs := hday
      have hstd' : toStd (walkDuration config t diff ev) = some s := by
        simpa using hstd
      simp only [next_class_loop, hday', hmin, hstd', unwrapMap, hcn, hcmd]
  | succ j ih =>
    intro rem d diff evs ev s cname cmd hlt hmid hday hmin hstd hcn hcmd
    cases rem with
    | zero => exact absurd hlt (Nat.not_lt_zero _)
    | succ r =>
      have h1 : config.timetable d.next = none :=
        hmid 1 (Nat.le_refl _) (Nat.succ_le_succ (Nat.zero_le _))
      simp only [next_class_loop, h1]
      refine ih r d.next (diff + 1) evs ev s cname cmd (Nat.lt_of_succ_lt_succ hlt)
        (fun k hk1 hkj => hmid (k + 1) (Nat.le_succ_of_le hk1) (Nat.succ_le_succ hkj))
        hday hmin ?_ hcn hcmd
      have hadd : diff + 1 + j = diff + (j + 1) := by omega
      rw [hadd]
      exact hstd

theorem next_class_loop_panic_empty (config : Config) (t : Nat) (d : Day)
    (diff rem : Nat) (h : config.timetable d.next = some []) :
    next_class_loop config t d diff (rem + 1) = .panic .emptyMin := by
  simp [next_class_loop, h, minByTime]

theorem next_class_loop_no_neg (config : Config) (t : Nat) (ht : t < 86400) :
    ∀ (rem : Nat) (d : Day) (diff : Nat), 1 ≤ diff →
      next_class_loop config t d diff rem ≠ .panic .negDuration := by
  intro rem
  induction rem with
  | zero => intro d diff _; simp [next_class_loop]
  | succ r ih =>
    intro d diff hdiff
    simp only [next_class_loop]
    cases htt : config.timetable d.next with
    | none => exact ih d.next (diff + 1) (by omega)
    | some evs =>
      cases hmin : minByTime evs with
      | none => simp [hmin]
      | some ev =>
        have hstd := toStd_eq_some (walkDuration_nonneg config t diff ev hdiff ht)
        cases hcn : config.events ev.event with
        | none => simp [hmin, hstd, unwrapMap, hcn]
        | some cname =>
          cases hcmd : config.command cname with
          | none => simp [hmin, hstd, unwrapMap, hcn, hcmd]
          | some cmd => simp [hmin, hstd, unwrapMap, hcn, hcmd]

theorem next_class_loop_ok (config : Config) (t : Nat) (ht : t < 86400)
    (hmaps : ∀ d evs ev, config.timetable d = some evs → ev ∈ evs →
      ∃ cname cmd, config.events ev.event = some cname ∧ config.command cname = some cmd)
    (hne : ∀ d evs, config.timetable d = some evs → evs ≠ []) :
    ∀ (rem : Nat) (d : Day) (diff : Nat), 1 ≤ diff →
      (next_class_loop config t d diff rem).isPanic = false := by
  intro rem
  induction rem with
  | zero => intro d diff _; rfl
  | succ r ih =>
    intro d diff hdiff
    simp only [next_class_loop]
    cases htt : config.timetable d.next with
    | none => exact ih d.next (diff + 1) (by omega)
    | some evs =>
      obtain ⟨ev, hmin⟩ := minByTime_isSome (hne _ _ htt)
      have hstd := toStd_eq_some (walkDuration_nonneg config t diff ev hdiff ht)
      obtain ⟨cname, cmd, hcn, hcmd⟩ := hmaps _ _ ev htt (minByTime_spec hmin).1
      simp [hmin, hstd, unwrapMap, hcn, hcmd, Outcome.isPanic]

/-! ### Claims -/

/-- C1: the claim says `get_event_and_command` returns `Some(e)` only when
`0 ≤ e.time - now ≤ notify_lead`, and that a gap beyond the lead yields `None`
while a gap within the lead yields `Some`.  The source has the comparison
inverted: with the Monday 09:00 "math" event and a 5-minute lead, the call at
Monday 08:56 (gap 4 min, inside the window) returns `None`, while the call at
Monday 08:00 (gap 60 min, far outside the window) returns `Some`. -/
theorem c1_window_check_inverted :
    get_event_and_command cfgMon5 .monday 32160 = .nothing ∧
      get_event_and_command cfgMon5 .monday 28800 = .found (evMath, cmdZoom) := by
  exact ⟨rfl, rfl⟩

/-- C2: the claim says an active event implies `next_class` returns duration 0
for the same event.  Because the active check is inverted (see C1), whenever
`get_event_and_command` returns `Some(e)` the gap exceeds the lead, so
`next_class` at the same instant returns the positive wait
`e.time - lead - now`, never 0: at Monday 08:00 with the 09:00 event and a
5-minute lead the active call returns the event while `next_class` returns
3300 seconds (55 minutes). -/
theorem c2_active_implies_positive_wait :
    get_event_and_command cfgMon5 .monday 28800 = .found (evMath, cmdZoom) ∧
      next_class cfgMon5 .monday 28800 = .found (3300, cmdZoom, evMath) ∧
      (3300 : Nat) ≠ 0 := by
  refine ⟨rfl, rfl, ?_⟩
  decide

/-- C3 counterexample: the claim treats `notify_time = candidate.time - lead`
as a signed, unclamped offset and asserts duration 0 whenever the lead exceeds
the candidate's time-of-day.  `chrono::NaiveTime` subtraction wraps modulo
24 h: for the Monday 00:30 event with a 60-minute lead at Monday 00:00 the
threshold wraps to 23:30 and `next_class` returns 84600 seconds, not 0. -/
theorem c3_counterexample :
    next_class cfgWrap .monday 0 = .found (84600, cmdZoom, evHalf) ∧
      (84600 : Nat) ≠ 0 := by
  refine ⟨rfl, ?_⟩
  decide

/-- C3 (amended): when today's sorted search yields a candidate `ev` (the
first event of today's list with `time ≥ now`, hence the earliest eligible
one) and its name resolves through both maps, `next_class` returns duration 0
if `notifyTime ev ≤ now` and `notifyTime ev - now` otherwise, where
`notifyTime` is the threshold wrapped modulo 24 hours — so a lead exceeding
the candidate's time-of-day wraps the threshold to late in the day and
produces a large positive duration rather than 0. -/
theorem c3_amended (config : Config) (today : Day) (t : Nat)
    (evs : List Event) (ev : Event) (cname : String) (cmd : CommandArgs)
    (htt : config.timetable today = some evs)
    (hcand : todayCandidate config today t = some ev)
    (hcn : config.events ev.event = some cname)
    (hcmd : config.command cname = some cmd) :
    next_class config today t =
      .found ((if notifyTime config ev ≤ t then 0 else notifyTime config ev - t), cmd, ev)
      ∧ ev ∈ evs ∧ t ≤ ev.time ∧ ∀ x ∈ evs, t ≤ x.time → ev.time ≤ x.time := by
  obtain ⟨hmem, hte, hfirst⟩ := todayCandidate_spec htt hcand
  refine ⟨?_, hmem, hte, hfirst⟩
  simp only [next_class, hcand]
  by_cases hc : notifyTime config ev ≤ t
  · simp [if_pos hc, unwrapMap, hcn, hcmd]
  · have hnn : (0 : Int) ≤ (notifyTime config ev : Int) - (t : Int) := by omega
    have hstd := toStd_eq_some hnn
    simp only [if_neg hc, hstd, unwrapMap, hcn, hcmd]
    have hval : ((notifyTime config ev : Int) - (t : Int)).toNat = notifyTime config ev - t := by
      omega
    rw [hval]

/-- C3 amended, witness: the wrap configuration at Monday 00:00 instantiates
the amended theorem, giving the 84600-second duration of the wrapped
threshold. -/
theorem c3_amended_witness :
    next_class cfgWrap .monday 0 = .found (84600, cmdZoom, evHalf) ∧
      evHalf ∈ [evHalf] := by
  have h := c3_amended cfgWrap .monday 0 [evHalf] evHalf "zoom" cmdZoom rfl rfl rfl rfl
  exact ⟨h.1, h.2.1⟩

/-- C4 counterexample: the claim computes the cross-day duration from the
signed threshold `event.time - lead`.  With Monday 00:30, a 60-minute lead and
now = Sunday 10:00, the claim's formula gives 48600 seconds (13 h 30 min), but
the code wraps the threshold to 23:30 and returns 135000 seconds
(1 day 13 h 30 min) — a full day longer. -/
theorem c4_counterexample :
    next_class cfgWrap .sunday 36000 = .found (135000, cmdZoom, evHalf) ∧
      (135000 : Nat) ≠ 48600 := by
  refine ⟨rfl, ?_⟩
  decide

/-- C4 (amended): with no remaining candidate today, the days strictly before
the target absent from the timetable (a present-but-empty day would panic, see
C5), and the day reached after `diff` forward steps (1 ≤ diff ≤ 6) present and
non-empty, `next_class` picks the first minimal-time event of that day and
returns `diff` days + (notify_time - now) when `notify_time > now`, and
`(diff - 1)` days + (1 day - (now - notify_time)) otherwise, where
`notify_time` is the threshold wrapped modulo 24 hours (not a signed
offset). -/
theorem c4_amended (config : Config) (today : Day) (t : Nat) (diff : Nat)
    (evs : List Event) (ev : Event) (cname : String) (cmd : CommandArgs)
    (ht : t < 86400)
    (hcand : todayCandidate config today t = none)
    (hdiff1 : 1 ≤ diff) (hdiff6 : diff ≤ 6)
    (hmid : ∀ k, 1 ≤ k → k < diff → config.timetable (Day.nextIter today k) = none)
    (hday : config.timetable (Day.nextIter today diff) = some evs)
    (hmin : minByTime evs = some ev)
    (hcn : config.events ev.event = some cname)
    (hcmd : config.command cname = some cmd) :
    next_class config today t =
      .found ((if t < notifyTime config ev
               then 86400 * diff + (notifyTime config ev - t)
               else 86400 * (diff - 1) + (86400 - (t - notifyTime config ev))), cmd, ev)
      ∧ ev ∈ evs ∧ ∀ x ∈ evs, ev.time ≤ x.time := by
  obtain ⟨hmem, hall⟩ := minByTime_spec hmin
  refine ⟨?_, hmem, hall⟩
  simp only [next_class, hcand]
  have hd : 1 + (diff - 1) = diff := by omega
  have hstd : toStd (walkDuration config t (1 + (diff - 1)) ev) =
      some ((walkDuration config t diff ev).toNat) := by
    rw [hd]
    exact toStd_eq_some (walkDuration_nonneg config t diff ev hdiff1 ht)
  have hday' : config.timetable (Day.nextIter today (diff - 1 + 1)) = some evs := by
    have : diff - 1 + 1 = diff := by omega
    rw [this]
    exact hday
  have hloop := next_class_loop_hit config t (diff - 1) 6 today 1 evs ev
    ((walkDuration config t diff ev).toNat) cname cmd (by omega)
    (fun k hk1 hkj => hmid k hk1 (by omega)) hday' hmin hstd hcn hcmd
  rw [hloop, walkDuration_toNat config t diff ev hdiff1 ht]

/-- C4 amended, witness: the wrap configuration at Sunday 10:00 instantiates
the amended theorem with diff = 1, giving the 135000-second duration. -/
theorem c4_amended_witness :
    next_class cfgWrap .sunday 36000 = .found (135000, cmdZoom, evHalf) ∧
      evHalf ∈ [evHalf] := by
  have h := c4_amended cfgWrap .sunday 36000 1 [evHalf] evHalf "zoom" cmdZoom
    (by decide) rfl (by decide) (by decide)
    (by intro k hk1 hklt; omega) rfl rfl rfl rfl
  exact ⟨h.1, h.2.1⟩

/-- C5 counterexample: the claim says the cross-day walk skips a
present-but-empty day and never fails on it.  With Monday 09:00 already past
(now Monday 10:00) and Tuesday present but empty, `next_class` panics (the
`unwrap` of `min_by` over the empty list) instead of skipping to a later
day. -/
theorem c5_counterexample :
    next_class cfgEmptyTue .monday 36000 = .panic .emptyMin := by
  rfl

/-- C5 (amended): a present-but-empty list is tolerated only by the
today-scoped code paths: `get_event_and_command` returns `None` on it, and the
today branch of `next_class` falls through; but the cross-day walk does not
skip such a day — reaching one panics on the `unwrap` of the empty minimum. -/
theorem c5_amended (config : Config) (d : Day) (t : Nat)
    (h : config.timetable d = some []) :
    get_event_and_command config d t = .nothing ∧
      (config.timetable d.next = some [] → next_class config d t = .panic .emptyMin) := by
  have hcand : todayCandidate config d t = none := by
    simp [todayCandidate, h, sortEvents]
  refine ⟨by simp [get_event_and_command, hcand], ?_⟩
  intro h2
  simp only [next_class, hcand]
  exact next_class_loop_panic_empty config t d 1 5 h2

/-- C5 amended, witness: both Monday and Tuesday present-but-empty: the active
resolver returns `None` and the walk panics on Tuesday. -/
theorem c5_amended_witness :
    get_event_and_command cfgTwoEmpty .monday 0 = .nothing ∧
      next_class cfgTwoEmpty .monday 0 = .panic .emptyMin := by
  have h := c5_amended cfgTwoEmpty .monday 0 rfl
  exact ⟨h.1, h.2 rfl⟩

/-- C6 counterexample: for Monday ↦ 09:00 "math" (1-minute lead) and now =
Tuesday 10:00, the claim predicts about 6 days + 22 h 59 min (601140 s); the
code returns 5 days + 22 h 59 min (514740 s) — Tuesday 10:00 to Monday 08:59
is under six days. -/
theorem c6_counterexample :
    next_class cfgC6 .teusday 36000 = .found (514740, cmdZoom, evMath) ∧
      (514740 : Nat) ≠ 601140 := by
  refine ⟨rfl, ?_⟩
  decide

/-- C6 (amended): for Monday ↦ 09:00 "math" with a 1-minute lead and now =
Tuesday 10:00, the walk takes 6 day-steps to reach Monday and `next_class`
returns 5 days + 22 h 59 min (514740 seconds, the time to the 08:59 notify
threshold) paired with the 09:00 "math" event. -/
theorem c6_amended :
    next_class cfgC6 .teusday 36000 = .found (514740, cmdZoom, evMath) := by
  rfl

/-- C7 counterexample: at Monday 08:56 the claim expects
`Some({09:00,"math"})` but the inverted window check returns `None`; at Monday
08:50 the claim expects next-wakeup 6 minutes, but the threshold is 08:55 so
the code returns 300 seconds (5 minutes), not 360. -/
theorem c7_counterexample :
    get_event_and_command cfgMon5 .monday 32160 = .nothing ∧
      next_class cfgMon5 .monday 31800 = .found (300, cmdZoom, evMath) ∧
      (300 : Nat) ≠ 360 := by
  refine ⟨rfl, rfl, ?_⟩
  decide

/-- C7 (amended): with Monday ↦ 09:00 "math" and a 5-minute lead, the code
behaves as follows: at Monday 08:56 `get_event_and_command` returns `None`
(gap 4 min ≤ lead is rejected by the inverted check, see C1); at Monday 08:50
it returns `Some` (gap 10 min > lead), and `next_class` returns 300 seconds
(5 minutes, the wait to the 08:55 threshold) with the event. -/
theorem c7_amended :
    get_event_and_command cfgMon5 .monday 32160 = .nothing ∧
      get_event_and_command cfgMon5 .monday 31800 = .found (evMath, cmdZoom) ∧
      next_class cfgMon5 .monday 31800 = .found (300, cmdZoom, evMath) := by
  exact ⟨rfl, rfl, rfl⟩

/-- C8 counterexample: the claim lets every day be "absent or empty" and
asserts both resolvers return `None`.  With the only entry a present-but-empty
Tuesday and now = Monday 00:00, `next_class` panics when the walk reaches
Tuesday instead of returning `None`. -/
theorem c8_counterexample :
    next_class cfgOnlyEmptyTue .monday 0 = .panic .emptyMin ∧
      next_class cfgOnlyEmptyTue .monday 0 ≠ .nothing := by
  refine ⟨rfl, ?_⟩
  decide

/-- C8 (amended): if every weekday other than today is absent from the
timetable and today is absent or present-but-empty, then
`get_event_and_command` and `next_class` both return `None`, for every notify
lead and instant.  (A present-but-empty list on a non-today day instead makes
`next_class` panic — see the counterexample and C5.) -/
theorem c8_amended (config : Config) (today : Day) (t : Nat)
    (habsent : ∀ d, d ≠ today → config.timetable d = none)
    (htoday : config.timetable today = none ∨ config.timetable today = some []) :
    get_event_and_command config today t = .nothing ∧
      next_class config today t = .nothing := by
  have hcand : todayCandidate config today t = none := by
    rcases htoday with h | h <;> simp [todayCandidate, h, sortEvents]
  constructor
  · simp [get_event_and_command, hcand]
  · simp only [next_class, hcand]
    refine next_class_loop_none config t 6 today 1 ?_
    intro k hk1 hk6
    refine habsent _ ?_
    interval_cases k <;> cases today <;> decide

/-- C8 amended, witness: the all-absent configuration at Monday 00:00. -/
theorem c8_amended_witness :
    get_event_and_command cfgAllAbsent .monday 0 = .nothing ∧
      next_class cfgAllAbsent .monday 0 = .nothing := by
  exact c8_amended cfgAllAbsent .monday 0 (fun _ _ => rfl) (Or.inl rfl)

/-- C9 counterexample: the claim says an event name missing from the `events`
map does not make the resolver fail.  With Monday ↦ 09:00 "math" but empty
`events`/`command` maps, the call at Monday 08:00 selects the event and panics
on the `unwrap` of the failed map lookup. -/
theorem c9_counterexample :
    get_event_and_command cfgNoEvents .monday 28800 = .panic .mapLookup := by
  rfl

/-- C9 (amended): the resolvers have exactly the two outcomes (a result or
`None`) only under the side conditions the source `unwrap`s: every event name
occurring in the timetable resolves through the `events` map and then the
`command` map, and every present day-list is non-empty.  Under those
conditions (and a valid time-of-day) neither resolver panics; without them the
resolver itself panics, as the counterexample shows. -/
theorem c9_amended (config : Config) (today : Day) (t : Nat)
    (ht : t < 86400)
    (hmaps : ∀ d evs ev, config.timetable d = some evs → ev ∈ evs →
      ∃ cname cmd, config.events ev.event = some cname ∧ config.command cname = some cmd)
    (hne : ∀ d evs, config.timetable d = some evs → evs ≠ []) :
    (get_event_and_command config today t).isPanic = false ∧
      (next_class config today t).isPanic = false := by
  constructor
  · cases hcand : todayCandidate config today t with
    | none => simp [get_event_and_command, hcand, Outcome.isPanic]
    | some ev =>
      obtain ⟨evs, htt, hmem, -⟩ := todayCandidate_mem hcand
      obtain ⟨cname, cmd, hcn, hcmd⟩ := hmaps _ _ _ htt hmem
      simp only [get_event_and_command, hcand]
      split
      · simp [unwrapMap, hcn, hcmd, Outcome.isPanic]
      · rfl
  · cases hcand : todayCandidate config today t with
    | none =>
      simp only [next_class, hcand]
      exact next_class_loop_ok config t ht hmaps hne 6 today 1 (Nat.le_refl _)
    | some ev =>
      obtain ⟨evs, htt, hmem, -⟩ := todayCandidate_mem hcand
      obtain ⟨cname, cmd, hcn, hcmd⟩ := hmaps _ _ _ htt hmem
      simp only [next_class, hcand]
      by_cases hc : notifyTime config ev ≤ t
      · simp [if_pos hc, unwrapMap, hcn, hcmd, Outcome.isPanic]
      · have hnn : (0 : Int) ≤ (notifyTime config ev : Int) - (t : Int) := by omega
        simp [if_neg hc, toStd_eq_some hnn, unwrapMap, hcn, hcmd, Outcome.isPanic]

/-- C9 amended, witness: the scenario configuration satisfies the side
conditions, so neither resolver panics at Monday 00:00. -/
theorem c9_amended_witness :
    (get_event_and_command cfgMon5 .monday 0).isPanic = false ∧
      (next_class cfgMon5 .monday 0).isPanic = false := by
  refine c9_amended cfgMon5 .monday 0 (by decide) ?_ ?_
  · intro d evs ev htt hmem
    cases d with
    | monday =>
      have hevs : [evMath] = evs := Option.some.inj htt
      subst hevs
      have hev : ev = evMath := List.mem_singleton.mp hmem
      subst hev
      exact ⟨"zoom", cmdZoom, rfl, rfl⟩
    | teusday => exact Option.noConfusion htt
    | wednesday => exact Option.noConfusion htt
    | thursday => exact Option.noConfusion htt
    | friday => exact Option.noConfusion htt
    | saturday => exact Option.noConfusion htt
    | sunday => exact Option.noConfusion htt
  · intro d evs htt
    cases d with
    | monday =>
      have hevs : [evMath] = evs := Option.some.inj htt
      subst hevs
      simp
    | teusday => exact Option.noConfusion htt
    | wednesday => exact Option.noConfusion htt
    | thursday => exact Option.noConfusion htt
    | friday => exact Option.noConfusion htt
    | saturday => exact Option.noConfusion htt
    | sunday => exact Option.noConfusion htt

/-- C10: whenever `next_class` computes a chrono duration — the today branch's
zero or `notify_time - now`, or either arm of the cross-day formula — that
duration is non-negative, so the `to_std().unwrap()` conversion never fails:
for a valid time-of-day the `negDuration` panic is unreachable for every
configuration and day. -/
theorem c10_to_std_never_fails (config : Config) (today : Day) (t : Nat)
    (ht : t < 86400) :
    next_class config today t ≠ .panic .negDuration := by
  cases hcand : todayCandidate config today t with
  | none =>
    simp only [next_class, hcand]
    exact next_class_loop_no_neg config t ht 6 today 1 (Nat.le_refl _)
  | some ev =>
    simp only [next_class, hcand]
    by_cases hc : notifyTime config ev ≤ t
    · cases hcn : config.events ev.event with
      | none => simp [if_pos hc, unwrapMap, hcn]
      | some cname =>
        cases hcmd : config.command cname with
        | none => simp [if_pos hc, unwrapMap, hcn, hcmd]
        | some cmd => simp [if_pos hc, unwrapMap, hcn, hcmd]
    · have hnn : (0 : Int) ≤ (notifyTime config ev : Int) - (t : Int) := by omega
      cases hcn : config.events ev.event with
      | none => simp [if_neg hc, toStd_eq_some hnn, unwrapMap, hcn]
      | some cname =>
        cases hcmd : config.command cname with
        | none => simp [if_neg hc, toStd_eq_some hnn, unwrapMap, hcn, hcmd]
        | some cmd => simp [if_neg hc, toStd_eq_some hnn, unwrapMap, hcn, hcmd]

/-- C10 witness: the scenario configuration at Monday 00:00. -/
theorem c10_witness :
    (0 : Nat) < 86400 ∧ next_class cfgMon5 .monday 0 ≠ .panic .negDuration :=
  ⟨by decide, c10_to_std_never_fails cfgMon5 .monday 0 (by decide)⟩

end EventJoiner
